import Mathlib

/-!
# Gaffer: DeleteFaces, TimeWarp and preference serialisation

A shallow embedding of

* `src/GafferScene/DeleteFaces.cpp` (the `DeleteFaces` scene node),
* `include/Gaffer/TimeWarp.h` (the `TimeWarp` context processor),
* `src/GafferBindings/ApplicationRootBinding.cpp` (`serialisePlugs`),

followed by theorems about the embedded functions.

Conventions.  A `std::string` is a Lean `String`.  A C++ exception is the
`error` side of `Except`.  Routines defined outside these three files
(`MeshAlgo::deleteFaces`, `Primitive::bound`, `serialisePlugValue`,
`SceneElementProcessor::affects`) are parameters of the functions that call them.
-/

set_option autoImplicit false

/-! ## Definitions -/

namespace Gaffer

/-- The direction of a plug, `Plug::In` or `Plug::Out`. -/
inductive Direction where
  | In
  | Out
  deriving DecidableEq, Repr

end Gaffer

namespace GafferScene

open Gaffer

/-- A primitive variable of a primitive: an interpolation tag and its data.
Only identity of the variable matters to `DeleteFaces`. -/
structure PrimitiveVariable where
  interpolation : Nat
  data : List Int
  deriving DecidableEq, Repr

/-- The type `PrimitiveVariableMap` is a `std::map<std::string, PrimitiveVariable>`;
it is kept as an association list. -/
abbrev PrimitiveVariableMap := List (String × PrimitiveVariable)

/-- The member `find( name )` of the map (`mesh->variables.find`, the field is called
`vars` here because `variables` is a keyword); `none` stands for `end()`. -/
def PrimitiveVariableMap.find (vars : PrimitiveVariableMap) (name : String) :
    Option PrimitiveVariable :=
  match vars with
  | [] => none
  | (k, v) :: rest => if k = name then some v else PrimitiveVariableMap.find rest name

/-- A mesh: its topology and its primitive variables. -/
structure MeshPrimitive where
  verticesPerFace : List Nat
  vertexIds : List Nat
  vars : PrimitiveVariableMap
  deriving DecidableEq, Repr

/-- The objects that flow through `in.object` and `out.object`.
`meshPrimitive` is any object for which `runTimeCast<const MeshPrimitive>` succeeds,
`primitive` any other `Primitive` (points, curves, ...), and `object` anything that
is not a `Primitive` (a camera, a null object, ...). -/
inductive Object where
  | meshPrimitive (mesh : MeshPrimitive)
  | primitive (typeName : String) (vars : PrimitiveVariableMap)
  | object (typeName : String)
  deriving DecidableEq, Repr

/-- The cast `runTimeCast<const MeshPrimitive>( object )`. -/
def runTimeCastMeshPrimitive : Object → Option MeshPrimitive
  | .meshPrimitive mesh => some mesh
  | _ => none

/-- Whether `runTimeCast<const Primitive>( object )` succeeds. -/
def runTimeCastPrimitive : Object → Bool
  | .meshPrimitive _ => true
  | .primitive _ _ => true
  | .object _ => false

/-- The classification `std::isspace` in the classic locale, which is what
`boost::trim_copy` uses by default. -/
def isSpace (c : Char) : Bool :=
  c = ' ' || c = '\t' || c = '\n' || c = '\x0b' || c = '\x0c' || c = '\r'

/-- The function `boost::trim_copy`: the end of the kept range is found first (trailing
spaces), then its beginning (leading spaces). -/
def trim_copy (s : String) : String :=
  String.mk ((s.data.reverse.dropWhile isSpace).reverse.dropWhile isSpace)

/-- What `computeProcessedObject` can throw: the exception it constructs itself, or
whatever `MeshAlgo::deleteFaces` throws, which passes through untouched. -/
inductive Exception (ε : Type) where
  | InvalidArgumentException (what : String)
  | fromMeshAlgo (e : ε)
  deriving DecidableEq, Repr

namespace DeleteFaces

/-- The message built by
`boost::format( "DeleteFaces : No primitive variable \"%s\" found" ) % deletePrimVarName`. -/
def noPrimitiveVariableMessage (deletePrimVarName : String) : String :=
  "DeleteFaces : No primitive variable \"" ++ deletePrimVarName ++ "\" found"

/-- The method `DeleteFaces::computeProcessedObject`.  `deleteFaces` is
`MeshAlgo::deleteFaces`, `facesValue` is what `facesPlug()->getValue()` returns. -/
def computeProcessedObject {ε : Type}
    (deleteFaces : MeshPrimitive → PrimitiveVariable → Except ε Object)
    (facesValue : String) (inputObject : Object) : Except (Exception ε) Object :=
  match runTimeCastMeshPrimitive inputObject with
  | none => .ok inputObject
  | some mesh =>
    let deletePrimVarName := facesValue
    if (trim_copy deletePrimVarName).isEmpty then
      .ok inputObject
    else
      match mesh.vars.find deletePrimVarName with
      | none => .error (.InvalidArgumentException (noPrimitiveVariableMessage deletePrimVarName))
      | some it =>
        match deleteFaces mesh it with
        | .ok result => .ok result
        | .error e => .error (.fromMeshAlgo e)

end DeleteFaces

/-! ### Plugs of a `DeleteFaces` node -/

/-- The children of a `ScenePlug` that `DeleteFaces.cpp` reaches through the accessors
`boundPlug()`, `transformPlug()`, `attributesPlug()` and `objectPlug()`, and any other
child, known by its name only. -/
inductive ScenePlugChild where
  | boundPlug
  | transformPlug
  | attributesPlug
  | objectPlug
  | otherChild (name : String)
  deriving DecidableEq, Repr

/-- The identity of a plug as `DeleteFaces::affects` can be handed one: `facesPlug()`,
a child of `inPlug()`, a child of `outPlug()`, or any other plug (one of the base
class, or of another node). -/
inductive Plug where
  | facesPlug
  | inPlug (child : ScenePlugChild)
  | outPlug (child : ScenePlugChild)
  | otherPlug (name : String) (direction : Direction)
  deriving DecidableEq, Repr

/-- The direction of a plug: `faces` is created with `Plug::In` by the constructor, the
children of the scene plugs `in` and `out` have the direction of their parent. -/
def Plug.direction : Plug → Direction
  | .facesPlug => .In
  | .inPlug _ => .In
  | .outPlug _ => .Out
  | .otherPlug _ d => d

/-- The container `AffectedPlugsContainer`, filled by `push_back`. -/
abbrev AffectedPlugsContainer := List Plug

namespace DeleteFaces

/-- The method `DeleteFaces::affects`.  `baseAffects` is `SceneElementProcessor::affects`,
which receives the same container by reference and may change it in any way. -/
def affects (baseAffects : Plug → AffectedPlugsContainer → AffectedPlugsContainer)
    (input : Plug) (outputs : AffectedPlugsContainer) : AffectedPlugsContainer :=
  let outputs := baseAffects input outputs
  if input = Plug.facesPlug then
    outputs ++ [Plug.outPlug ScenePlugChild.objectPlug]
  else if input = Plug.outPlug ScenePlugChild.objectPlug then
    outputs ++ [Plug.outPlug ScenePlugChild.boundPlug]
  else
    outputs

/-- The edges `DeleteFaces::affects` itself adds: what it pushes on an empty container
when the base class pushes nothing. -/
def addedEdges (input : Plug) : List Plug :=
  affects (fun _ outputs => outputs) input []

/-- The method `DeleteFaces::processesBound`. -/
def processesBound : Bool := true

/-- The method `DeleteFaces::processesObject`. -/
def processesObject : Bool := true

end DeleteFaces

/-- Modelled from the spec: the dirty propagation engine lives in the core, outside the files
embedded here.  Section 4.2 of the specification describes it as a walk over the affects relation, transitively, that
fails fast when a visit budget is exceeded.  This walk keeps no visited set: it returns
the plugs in the order it reaches them, or `none` when the budget `fuel` runs out. -/
def propagateDirtiness (edges : Plug → List Plug) : Nat → Plug → Option (List Plug)
  | 0, _ => none
  | fuel + 1, p =>
    match (edges p).mapM (propagateDirtiness edges fuel) with
    | none => none
    | some visited => some (p :: visited.flatten)

/-! ### Construction of a `DeleteFaces` node -/

/-- A child plug as the constructor creates it: `new StringPlug( name, direction, default )`. -/
structure ChildPlug where
  typeName : String
  name : String
  direction : Direction
  defaultValue : String
  deriving DecidableEq, Repr

/-- The part of a node the constructor works on: its children, in order, and the input
connection of each plug (`getInput()`, `none` when unconnected). -/
structure Node where
  children : List ChildPlug
  input : Plug → Option Plug

/-- The call `addChild( child )`: the child goes to the end of the children. -/
def Node.addChild (n : Node) (child : ChildPlug) : Node :=
  { n with children := n.children ++ [child] }

/-- The call `plug->setInput( source )`. -/
def Node.setInput (n : Node) (plug source : Plug) : Node :=
  { n with input := fun p => if p = plug then some source else n.input p }

/-- A constructed `DeleteFaces`: the node, and the static `g_firstPlugIndex`. -/
structure DeleteFacesNode where
  node : Node
  g_firstPlugIndex : Nat

/-- The constructor `DeleteFaces::DeleteFaces`.  `base` is the node as the constructor of
`SceneElementProcessor` leaves it; `storeIndexOfNextChild` stores the number of
children present at that moment. -/
def DeleteFacesNode.construct (base : Node) : DeleteFacesNode :=
  let g_firstPlugIndex := base.children.length
  let n := base.addChild ⟨"StringPlug", "faces", Direction.In, "deleteFaces"⟩
  let n := n.setInput (Plug.outPlug ScenePlugChild.attributesPlug)
    (Plug.inPlug ScenePlugChild.attributesPlug)
  let n := n.setInput (Plug.outPlug ScenePlugChild.transformPlug)
    (Plug.inPlug ScenePlugChild.transformPlug)
  ⟨n, g_firstPlugIndex⟩

/-- The accessor `DeleteFaces::facesPlug`: `getChild<StringPlug>( g_firstPlugIndex )`. -/
def DeleteFacesNode.facesPlug (d : DeleteFacesNode) : Option ChildPlug :=
  d.node.children[d.g_firstPlugIndex]?

/-! ### Hash and value of `out.bound` -/

/-- A point with integer coordinates. -/
abbrev V3 := Int × Int × Int

/-- The type `Imath::Box3f`.  Only equality of boxes matters here, so coordinates are
integers. -/
structure Box3f where
  min : V3
  max : V3
  deriving DecidableEq, Repr

/-- A `MurmurHash` is represented by the sequence of what was appended to it. -/
abbrev MurmurHash := List String

namespace DeleteFaces

/-- The method `DeleteFaces::hashProcessedObject`: `facesPlug()->hash( h )`, the path and
the context are not used. -/
def hashProcessedObject (facesValue : String) (h : MurmurHash) : MurmurHash :=
  h ++ [facesValue]

/-- The method `DeleteFaces::hashProcessedBound`: it calls `hashProcessedObject`. -/
def hashProcessedBound (facesValue : String) (h : MurmurHash) : MurmurHash :=
  hashProcessedObject facesValue h

/-- The method `DeleteFaces::computeProcessedBound`.  `bound` is `Primitive::bound`, and
`outObject` is the outcome of `outPlug()->objectPlug()->getValue()`, whose exception, if
any, is not caught. -/
def computeProcessedBound {E : Type} (bound : Object → Box3f)
    (outObject : Except E Object) (inputBound : Box3f) : Except E Box3f :=
  match outObject with
  | .error e => .error e
  | .ok object =>
    if runTimeCastPrimitive object then .ok (bound object) else .ok inputBound

end DeleteFaces

/-! ### The compute routines on the plugs of the node -/

/-- What `getValue()` returns for a plug in the context of a computation: a string for a
`StringPlug`, an object (or the exception its computation throws) for an `ObjectPlug`,
anything else for the other plugs. -/
inductive PlugValue (ε : Type) where
  | string (value : String)
  | object (value : Except (Exception ε) Object)
  | other (value : Nat)

/-- The values of all plugs in the context of a computation. -/
abbrev PlugValues (ε : Type) := Plug → PlugValue ε

/-- The member `StringPlug::getValue` of a plug, given the values of the plugs. -/
def PlugValues.getString {ε : Type} (values : PlugValues ε) (plug : Plug) : String :=
  match values plug with
  | .string value => value
  | _ => ""

/-- The member `ObjectPlug::getValue` of a plug, given the values of the plugs. -/
def PlugValues.getObject {ε : Type} (values : PlugValues ε) (plug : Plug) :
    Except (Exception ε) Object :=
  match values plug with
  | .object value => value
  | _ => .ok (Object.object "NullObject")

namespace DeleteFaces

/-- The method `DeleteFaces::computeProcessedObject` on a node whose plugs hold `values`:
`deletePrimVarName` is initialised from `facesPlug()->getValue()`, the input object is
the argument handed over by the base class. -/
def computeProcessedObjectOn {ε : Type}
    (deleteFaces : MeshPrimitive → PrimitiveVariable → Except ε Object)
    (values : PlugValues ε) (inputObject : Object) : Except (Exception ε) Object :=
  computeProcessedObject deleteFaces (values.getString Plug.facesPlug) inputObject

/-- The method `DeleteFaces::computeProcessedBound` on a node whose plugs hold `values`:
`object` is initialised from `outPlug()->objectPlug()->getValue()`, the input bound is
the argument handed over by the base class. -/
def computeProcessedBoundOn {ε : Type} (bound : Object → Box3f)
    (values : PlugValues ε) (inputBound : Box3f) : Except (Exception ε) Box3f :=
  computeProcessedBound bound
    (values.getObject (Plug.outPlug ScenePlugChild.objectPlug)) inputBound

end DeleteFaces

/-- A true data dependency: the result of `compute` depends on the plug `p` when two
assignments of values to the plugs that agree everywhere but at `p` give different
results. -/
def DependsOn {ε α : Type} (compute : PlugValues ε → α) (p : Plug) : Prop :=
  ∃ values1 values2 : PlugValues ε,
    (∀ q, q ≠ p → values1 q = values2 q) ∧ compute values1 ≠ compute values2

/-- What one evaluation of `out.bound` at a filtered location sees upstream: the value of
the faces plug, the value of `in.object`, and the value and hash of `in.bound`. -/
structure BoundEvaluation where
  facesValue : String
  inputObject : Object
  inputBound : Box3f
  inputBoundHash : MurmurHash
  deriving DecidableEq, Repr

/-- Modelled from the spec: `SceneElementProcessor::hashBound` belongs to the base class,
outside the files embedded here.  The hash of `out.bound` is made of the input-bound contribution and of the
contribution of `hashProcessedBound`. -/
def BoundEvaluation.hashBound (e : BoundEvaluation) : MurmurHash :=
  DeleteFaces.hashProcessedBound e.facesValue e.inputBoundHash

/-- Modelled from the spec: `SceneElementProcessor::computeObject` and `computeBound`
belong to the base class, outside the files embedded here.  The value of `out.object` is `computeProcessedObject`
applied to the value of `in.object`, and the value of `out.bound` is
`computeProcessedBound` applied to the value of `in.bound`. -/
def BoundEvaluation.computeBound {ε : Type}
    (deleteFaces : MeshPrimitive → PrimitiveVariable → Except ε Object)
    (bound : Object → Box3f) (e : BoundEvaluation) : Except (Exception ε) Box3f :=
  DeleteFaces.computeProcessedBound bound
    (DeleteFaces.computeProcessedObject deleteFaces e.facesValue e.inputObject) e.inputBound

/-- The points stored flat, `x y z x y z ...`, in the data of a variable. -/
def pointsOf : List Int → List V3
  | x :: y :: z :: rest => (x, y, z) :: pointsOf rest
  | _ => []

/-- The smallest box around a list of points; the empty box has `min` above `max`. -/
def boxAround (points : List V3) : Box3f :=
  points.foldl
    (fun b p =>
      if b.max.1 < b.min.1 then ⟨p, p⟩
      else ⟨(Min.min b.min.1 p.1, Min.min b.min.2.1 p.2.1, Min.min b.min.2.2 p.2.2),
            (Max.max b.max.1 p.1, Max.max b.max.2.1 p.2.1, Max.max b.max.2.2 p.2.2)⟩)
    ⟨(1, 1, 1), (0, 0, 0)⟩

/-- A stand-in for `Primitive::bound` (a library routine): the box around the points of
the variable `P`. -/
def boundOfP : Object → Box3f
  | .meshPrimitive mesh => boxAround (pointsOf ((mesh.vars.find "P").elim [] (fun v => v.data)))
  | .primitive _ vars => boxAround (pointsOf ((vars.find "P").elim [] (fun v => v.data)))
  | .object _ => boxAround []

/-- First of two evaluations of `out.bound` at a location holding a points primitive:
the faces plug at its default, an input bound that also covers child locations. -/
def evaluationA : BoundEvaluation :=
  { facesValue := "deleteFaces"
    inputObject := Object.primitive "PointsPrimitive" [("P", ⟨3, [0, 0, 0, 1, 1, 1]⟩)]
    inputBound := ⟨(0, 0, 0), (5, 5, 5)⟩
    inputBoundHash := ["in.bound"] }

/-- Second evaluation: the same faces value and the same `in.bound` (value and hash), a
different `in.object`. -/
def evaluationB : BoundEvaluation :=
  { evaluationA with
    inputObject := Object.primitive "PointsPrimitive" [("P", ⟨3, [0, 0, 0, 2, 2, 2]⟩)] }

end GafferScene

namespace Gaffer

/-! ### Contexts and `TimeWarp` -/

/-- Modelled from the spec: `Context` is defined in the core, outside the files embedded
here.  Section 3 of the specification describes it as a mapping from variable names to
values, the frame being one of them; the frame is kept apart from the other variables
and is an exact rational. -/
structure Context where
  frame : ℚ
  others : List (String × String)
  deriving DecidableEq

/-- Modelled from the spec: `TimeWarp.h` only declares `processContext`.  By the
composition law of section 8, one time warp sends the frame `f` of the scope it is
given to `offset + speed * f` and leaves the other variables alone. -/
def TimeWarp.processContext (speed offset : ℚ) (context : Context) : Context :=
  { context with frame := offset + speed * context.frame }

/-- A chain of context processors above a leaf computation: `timeWarp speed offset input`
is a `TimeWarp` node whose input is connected to `input`. -/
inductive ComputeNode where
  | leaf
  | timeWarp (speed offset : ℚ) (input : ComputeNode)
  deriving DecidableEq

/-- Modelled from the spec: the evaluation of a context processor (section 4.4).  A
request made to a node in context `c` reaches a leaf in the returned context: a
`TimeWarp` opens a scope on the incoming context, lets `processContext` rewrite it, and
pulls its input inside that scope. -/
def ComputeNode.leafContext : ComputeNode → Context → Context
  | .leaf, c => c
  | .timeWarp speed offset input, c =>
    input.leafContext (TimeWarp.processContext speed offset c)

end Gaffer

namespace GafferBindings

open Gaffer

/-! ### `ApplicationRootWrapper::serialisePlugs` -/

/-- A graph component with its children: its name, its direction when it is a `Plug`
(`none` for a child that is no plug, which `InputPlugIterator` skips), and its `typeId()`. -/
inductive GraphComponent where
  | mk (name : String) (direction : Option Direction) (typeId : Nat)
      (children : List GraphComponent)

instance : Inhabited GraphComponent := ⟨GraphComponent.mk "" none 0 []⟩

/-- The member `getName()`. -/
def GraphComponent.getName : GraphComponent → String
  | .mk name _ _ _ => name

/-- The member `children()`. -/
def GraphComponent.children : GraphComponent → List GraphComponent
  | .mk _ _ _ children => children

/-- The member `typeId()`. -/
def GraphComponent.typeId : GraphComponent → Nat
  | .mk _ _ typeId _ => typeId

/-- The predicate of `InputPlugIterator`: a plug whose direction is `Plug::In`. -/
def GraphComponent.isInputPlug : GraphComponent → Bool
  | .mk _ direction _ _ => direction = some Direction.In

/-- The `Serialiser`, as far as `serialisePlugs` uses it: the statements given to
`add`, in order. -/
structure Serialiser where
  added : List String
  deriving DecidableEq, Repr

/-- The member `Serialiser::add`. -/
def Serialiser.add (s : Serialiser) (statement : String) : Serialiser :=
  { s with added := s.added ++ [statement] }

mutual

/-- The method `ApplicationRootWrapper::serialisePlugs`.  `serialisePlugValue` is the
function of that name from `ValuePlugBinding`, taken as the text it returns for a plug,
and `compoundPlugTypeId` is `CompoundPlug::staticTypeId()`. -/
def serialisePlugs (serialisePlugValue : GraphComponent → String) (compoundPlugTypeId : Nat)
    (s : Serialiser) (parent : GraphComponent) (parentPath : String) : Serialiser :=
  match parent with
  | .mk _ _ _ children =>
    serialisePlugsLoop serialisePlugValue compoundPlugTypeId s children parentPath

/-- The `for` loop of `serialisePlugs` over the children that remain. -/
def serialisePlugsLoop (serialisePlugValue : GraphComponent → String)
    (compoundPlugTypeId : Nat) (s : Serialiser) (remaining : List GraphComponent)
    (parentPath : String) : Serialiser :=
  match remaining with
  | [] => s
  | it :: rest =>
    if it.isInputPlug then
      if it.typeId = compoundPlugTypeId then
        serialisePlugsLoop serialisePlugValue compoundPlugTypeId
          (serialisePlugs serialisePlugValue compoundPlugTypeId s it
            (parentPath ++ "[\"" ++ it.getName ++ "\"]"))
          rest parentPath
      else
        let ss := parentPath ++ "[\"" ++ it.getName ++ "\"].setValue( "
        let ss := ss ++ serialisePlugValue it
        let ss := ss ++ " )\n"
        serialisePlugsLoop serialisePlugValue compoundPlugTypeId (s.add ss) rest parentPath
    else
      serialisePlugsLoop serialisePlugValue compoundPlugTypeId s rest parentPath

end

namespace Spec

mutual

/-- The leaves as the specification words them: in depth-first order following
child order, each input plug below `parent` whose type is not exactly `CompoundPlug` and
which is reached through input plugs of exact type `CompoundPlug` only, with the names
met on the way from `parent` down to it.  Output plugs and what lies below them give
nothing. -/
def leafPlugs (compoundPlugTypeId : Nat) :
    GraphComponent → List (List String × GraphComponent)
  | .mk _ _ _ children => leafPlugsOfChildren compoundPlugTypeId children

/-- The leaves below each of a list of siblings, one sibling after the other. -/
def leafPlugsOfChildren (compoundPlugTypeId : Nat) :
    List GraphComponent → List (List String × GraphComponent)
  | [] => []
  | child :: siblings =>
    (if child.isInputPlug then
      if child.typeId = compoundPlugTypeId then
        (leafPlugs compoundPlugTypeId child).map (fun l => (child.getName :: l.1, l.2))
      else
        [([child.getName], child)]
    else
      []) ++ leafPlugsOfChildren compoundPlugTypeId siblings

end

/-- The text `["n1"]...["nk"]` for the names `n1 ... nk`. -/
def indexPath : List String → String
  | [] => ""
  | n :: names => "[\"" ++ n ++ "\"]" ++ indexPath names

/-- The statement the specification gives for a leaf:
`parentPath["n1"]...["nk"].setValue( <value> )` and a newline. -/
def setValueStatement (serialisePlugValue : GraphComponent → String) (parentPath : String)
    (l : List String × GraphComponent) : String :=
  parentPath ++ indexPath l.1 ++ ".setValue( " ++ serialisePlugValue l.2 ++ " )\n"

/-- The leaves of the specification as a relation: `ReachableLeaf c parent names plug` says that
`plug` is an input plug whose type is not exactly `CompoundPlug` (type id `c`), reached
from `parent` through input plugs of exact type `CompoundPlug`, `names` being the plug
names on the way, the leaf included. -/
inductive ReachableLeaf (compoundPlugTypeId : Nat) :
    GraphComponent → List String → GraphComponent → Prop where
  | leaf (parent child : GraphComponent) :
      child ∈ parent.children → child.isInputPlug = true →
      child.typeId ≠ compoundPlugTypeId →
      ReachableLeaf compoundPlugTypeId parent [child.getName] child
  | through (parent child : GraphComponent) (names : List String) (plug : GraphComponent) :
      child ∈ parent.children → child.isInputPlug = true →
      child.typeId = compoundPlugTypeId →
      ReachableLeaf compoundPlugTypeId child names plug →
      ReachableLeaf compoundPlugTypeId parent (child.getName :: names) plug

end Spec

end GafferBindings

/-! ## Theorems -/

namespace GafferScene

open Gaffer

/-! ### `boost::trim_copy` and the primitive variable map -/

theorem trim_copy_isEmpty_iff (s : String) :
    (trim_copy s).isEmpty = true ↔ ∀ c ∈ s.data, isSpace c = true := by
  rw [String.isEmpty_iff]
  constructor
  · intro h c hc
    have h1 : (s.data.reverse.dropWhile isSpace).reverse.dropWhile isSpace = [] :=
      congrArg String.data h
    by_contra hsp
    -- a non-space character survives the trailing trim ...
    have h2 : ∃ d ∈ (s.data.reverse.dropWhile isSpace).reverse, ¬ isSpace d = true := by
      refine ⟨c, ?_, hsp⟩
      rw [List.mem_reverse]
      have hc2 : c ∈ s.data.reverse := List.mem_reverse.mpr hc
      rw [← List.takeWhile_append_dropWhile isSpace s.data.reverse] at hc2
      rcases List.mem_append.mp hc2 with ht | hd
      · exact absurd (List.mem_takeWhile_imp ht) hsp
      · exact hd
    -- ... and then the leading trim
    rcases h2 with ⟨d, hd, hdsp⟩
    have h3 := List.dropWhile_eq_nil_iff.mp h1 d hd
    exact hdsp h3
  · intro h
    have h1 : s.data.reverse.dropWhile isSpace = [] :=
      List.dropWhile_eq_nil_iff.mpr (fun c hc => h c (List.mem_reverse.mp hc))
    simp [trim_copy, h1]

theorem find_eq_none_iff (vars : PrimitiveVariableMap) (name : String) :
    vars.find name = none ↔ ∀ pv, (name, pv) ∉ vars := by
  induction vars with
  | nil => simp [PrimitiveVariableMap.find]
  | cons head rest ih =>
    obtain ⟨k, v⟩ := head
    unfold PrimitiveVariableMap.find
    by_cases hk : k = name
    · subst hk
      simp only [if_true]
      constructor
      · intro h; cases h
      · intro h; exact absurd (List.mem_cons_self _ _) (h v)
    · rw [if_neg hk, ih]
      constructor
      · intro h pv hmem
        rcases List.mem_cons.mp hmem with heq | hin
        · exact hk (congrArg Prod.fst heq).symm
        · exact h pv hin
      · intro h pv hin
        exact h pv (List.mem_cons_of_mem _ hin)

/-! ### `DeleteFaces::computeProcessedObject` -/

/-- C1: when the input object is not a `MeshPrimitive`, or the value of the faces plug is
empty or made of whitespace only, `computeProcessedObject` returns the very input object:
no exception, and whatever `MeshAlgo::deleteFaces` is, it has no part in the result. -/
theorem computeProcessedObject_passThrough {ε : Type}
    (deleteFaces : MeshPrimitive → PrimitiveVariable → Except ε Object)
    (v : String) (inputObject : Object)
    (h : (∀ mesh, inputObject ≠ Object.meshPrimitive mesh) ∨
      (∀ c ∈ v.data, isSpace c = true)) :
    DeleteFaces.computeProcessedObject deleteFaces v inputObject = Except.ok inputObject := by
  unfold DeleteFaces.computeProcessedObject
  cases inputObject with
  | meshPrimitive mesh =>
    rcases h with h | h
    · exact absurd rfl (h mesh)
    · simp only [runTimeCastMeshPrimitive]
      rw [if_pos ((trim_copy_isEmpty_iff v).mpr h)]
  | primitive t vs => rfl
  | object t => rfl

/-- C1, at a concrete input: a mesh that does carry a variable called `deleteFaces` is
returned untouched when the faces plug holds only blanks and a tab, even though the
mesh algorithm given here would replace it. -/
theorem computeProcessedObject_passThrough_witness :
    ((∀ mesh, Object.meshPrimitive ⟨[3], [0, 1, 2], [("deleteFaces", ⟨1, [1]⟩)]⟩
        ≠ Object.meshPrimitive mesh) ∨
      (∀ c ∈ (" \t ").data, isSpace c = true)) ∧
    DeleteFaces.computeProcessedObject
        (fun _ _ => (Except.ok (Object.object "NullObject") : Except Unit Object)) " \t "
        (Object.meshPrimitive ⟨[3], [0, 1, 2], [("deleteFaces", ⟨1, [1]⟩)]⟩)
      = Except.ok (Object.meshPrimitive ⟨[3], [0, 1, 2], [("deleteFaces", ⟨1, [1]⟩)]⟩) :=
  ⟨Or.inr (by decide),
   computeProcessedObject_passThrough _ " \t " _ (Or.inr (by decide))⟩

/-- C2: `computeProcessedObject` throws an exception of its own exactly when the input is
a `MeshPrimitive`, the faces value `v` is not empty after trimming, and the mesh has no
primitive variable named `v`; and exactly then the exception is the
`InvalidArgumentException` whose message is
`DeleteFaces : No primitive variable "<v>" found` (an `error`, so no value is returned). -/
theorem computeProcessedObject_throws_iff {ε : Type}
    (deleteFaces : MeshPrimitive → PrimitiveVariable → Except ε Object)
    (v : String) (inputObject : Object) :
    ((∃ what, DeleteFaces.computeProcessedObject deleteFaces v inputObject
        = Except.error (Exception.InvalidArgumentException what)) ↔
      (∃ mesh, inputObject = Object.meshPrimitive mesh ∧ (trim_copy v).isEmpty = false ∧
        ∀ pv, (v, pv) ∉ mesh.vars)) ∧
    (DeleteFaces.computeProcessedObject deleteFaces v inputObject
        = Except.error (Exception.InvalidArgumentException
            ("DeleteFaces : No primitive variable \"" ++ v ++ "\" found")) ↔
      (∃ mesh, inputObject = Object.meshPrimitive mesh ∧ (trim_copy v).isEmpty = false ∧
        ∀ pv, (v, pv) ∉ mesh.vars)) := by
  have key : ∀ what, DeleteFaces.computeProcessedObject deleteFaces v inputObject
        = Except.error (Exception.InvalidArgumentException what) →
      (∃ mesh, inputObject = Object.meshPrimitive mesh ∧ (trim_copy v).isEmpty = false ∧
        ∀ pv, (v, pv) ∉ mesh.vars) := by
    intro what h
    unfold DeleteFaces.computeProcessedObject at h
    cases inputObject with
    | meshPrimitive mesh =>
      simp only [runTimeCastMeshPrimitive] at h
      by_cases hb : (trim_copy v).isEmpty = true
      · rw [if_pos hb] at h; cases h
      · rw [if_neg hb] at h
        refine ⟨mesh, rfl, by simpa using hb, ?_⟩
        cases hf : mesh.vars.find v with
        | none => exact (find_eq_none_iff _ _).mp hf
        | some it =>
          rw [hf] at h
          dsimp only at h
          cases hd : deleteFaces mesh it with
          | ok result => rw [hd] at h; cases h
          | error e => rw [hd] at h; cases h
    | primitive t vs => cases h
    | object t => cases h
  have back : (∃ mesh, inputObject = Object.meshPrimitive mesh ∧
      (trim_copy v).isEmpty = false ∧ ∀ pv, (v, pv) ∉ mesh.vars) →
      DeleteFaces.computeProcessedObject deleteFaces v inputObject
        = Except.error (Exception.InvalidArgumentException
            ("DeleteFaces : No primitive variable \"" ++ v ++ "\" found")) := by
    rintro ⟨mesh, rfl, hb, hv⟩
    unfold DeleteFaces.computeProcessedObject
    simp only [runTimeCastMeshPrimitive]
    rw [if_neg (by simp [hb]), (find_eq_none_iff _ _).mpr hv]
    rfl
  exact ⟨⟨fun ⟨what, h⟩ => key what h, fun h => ⟨_, back h⟩⟩, ⟨key _, back⟩⟩

theorem find_of_mem_nodup (vars : PrimitiveVariableMap) (name : String)
    (pv : PrimitiveVariable) (hnd : (vars.map Prod.fst).Nodup) (h : (name, pv) ∈ vars) :
    vars.find name = some pv := by
  induction vars with
  | nil => cases h
  | cons head rest ih =>
    obtain ⟨k, v⟩ := head
    rw [List.map_cons, List.nodup_cons] at hnd
    unfold PrimitiveVariableMap.find
    rcases List.mem_cons.mp h with heq | hin
    · cases heq
      simp
    · have hk : k ≠ name := by
        intro hk
        subst hk
        exact hnd.1 (List.mem_map.mpr ⟨(k, pv), hin, rfl⟩)
      rw [if_neg hk]
      exact ih hnd.2 hin

/-- C10: trimming only decides blankness.  For a mesh input and a faces value `v` that is
not blank, the variable used is the one stored under the untrimmed name `v`: when the
mesh has it, the result is `MeshAlgo::deleteFaces( mesh, variables[v] )`, and when the
mesh has no variable of that exact name the missing-variable exception is thrown.  Hence
a mesh with a variable `deleteFaces` and none called ` deleteFaces ` makes the faces
value ` deleteFaces ` throw rather than delete faces. -/
theorem computeProcessedObject_lookup_untrimmed {ε : Type}
    (deleteFaces : MeshPrimitive → PrimitiveVariable → Except ε Object)
    (mesh : MeshPrimitive) (v : String)
    (hv : (trim_copy v).isEmpty = false) (hmap : (mesh.vars.map Prod.fst).Nodup) :
    (∀ pv, (v, pv) ∈ mesh.vars →
      DeleteFaces.computeProcessedObject deleteFaces v (Object.meshPrimitive mesh)
        = (deleteFaces mesh pv).mapError Exception.fromMeshAlgo) ∧
    ((∀ pv, (v, pv) ∉ mesh.vars) →
      DeleteFaces.computeProcessedObject deleteFaces v (Object.meshPrimitive mesh)
        = Except.error (Exception.InvalidArgumentException
            ("DeleteFaces : No primitive variable \"" ++ v ++ "\" found"))) ∧
    (v = " deleteFaces " → (∃ pv, ("deleteFaces", pv) ∈ mesh.vars) →
      (∀ pv, (" deleteFaces ", pv) ∉ mesh.vars) →
      DeleteFaces.computeProcessedObject deleteFaces v (Object.meshPrimitive mesh)
        = Except.error (Exception.InvalidArgumentException
            "DeleteFaces : No primitive variable \" deleteFaces \" found")) := by
  have hb : ¬ (trim_copy v).isEmpty = true := by simp [hv]
  have missing : (∀ pv, (v, pv) ∉ mesh.vars) →
      DeleteFaces.computeProcessedObject deleteFaces v (Object.meshPrimitive mesh)
        = Except.error (Exception.InvalidArgumentException
            ("DeleteFaces : No primitive variable \"" ++ v ++ "\" found")) := by
    intro hno
    unfold DeleteFaces.computeProcessedObject
    simp only [runTimeCastMeshPrimitive]
    rw [if_neg hb, (find_eq_none_iff _ _).mpr hno]
    rfl
  refine ⟨?_, missing, ?_⟩
  · intro pv hmem
    unfold DeleteFaces.computeProcessedObject
    simp only [runTimeCastMeshPrimitive]
    rw [if_neg hb, find_of_mem_nodup _ _ _ hmap hmem]
    dsimp only
    cases deleteFaces mesh pv <;> rfl
  · intro hveq _ hno
    subst hveq
    exact missing hno

/-- C10, at a concrete input: the mesh carries `deleteFaces`, the plug holds
` deleteFaces `, and the mesh algorithm (which would succeed) is never reached. -/
theorem computeProcessedObject_lookup_untrimmed_witness :
    (trim_copy " deleteFaces ").isEmpty = false ∧
    (([("deleteFaces", (⟨1, [1, 0]⟩ : PrimitiveVariable))] : PrimitiveVariableMap).map
      Prod.fst).Nodup ∧
    DeleteFaces.computeProcessedObject
        (fun _ _ => (Except.ok (Object.object "NullObject") : Except Unit Object))
        " deleteFaces "
        (Object.meshPrimitive ⟨[3, 3], [0, 1, 2, 0, 2, 3], [("deleteFaces", ⟨1, [1, 0]⟩)]⟩)
      = Except.error (Exception.InvalidArgumentException
          "DeleteFaces : No primitive variable \" deleteFaces \" found") :=
  ⟨by decide, by decide,
   (computeProcessedObject_lookup_untrimmed _
      ⟨[3, 3], [0, 1, 2, 0, 2, 3], [("deleteFaces", ⟨1, [1, 0]⟩)]⟩ " deleteFaces "
      (by decide) (by decide)).2.2 rfl ⟨_, List.mem_cons_self _ _⟩
      ((find_eq_none_iff _ _).mp (by decide))⟩

/-! ### `DeleteFaces::affects` -/

theorem mem_addedEdges (p q : Plug) :
    q ∈ DeleteFaces.addedEdges p ↔
      (p = Plug.facesPlug ∧ q = Plug.outPlug ScenePlugChild.objectPlug) ∨
      (p = Plug.outPlug ScenePlugChild.objectPlug ∧
        q = Plug.outPlug ScenePlugChild.boundPlug) := by
  unfold DeleteFaces.addedEdges DeleteFaces.affects
  by_cases h1 : p = Plug.facesPlug
  · subst h1
    simp
  · by_cases h2 : p = Plug.outPlug ScenePlugChild.objectPlug
    · subst h2
      simp
    · simp [h1, h2]

theorem transGen_addedEdges (p q : Plug)
    (h : Relation.TransGen (fun a b => b ∈ DeleteFaces.addedEdges a) p q) :
    (p = Plug.facesPlug ∧ q = Plug.outPlug ScenePlugChild.objectPlug) ∨
    (p = Plug.outPlug ScenePlugChild.objectPlug ∧ q = Plug.outPlug ScenePlugChild.boundPlug) ∨
    (p = Plug.facesPlug ∧ q = Plug.outPlug ScenePlugChild.boundPlug) := by
  induction h with
  | single hpq =>
    rcases (mem_addedEdges _ _).mp hpq with h | h
    · exact Or.inl h
    · exact Or.inr (Or.inl h)
  | tail _ hbc ih =>
    rcases (mem_addedEdges _ _).mp hbc with ⟨hb, hc⟩ | ⟨hb, hc⟩
    · subst hb
      rcases ih with ⟨_, h⟩ | ⟨_, h⟩ | ⟨_, h⟩ <;> cases h
    · subst hb
      rcases ih with ⟨hp, _⟩ | ⟨_, h⟩ | ⟨_, h⟩
      · exact Or.inr (Or.inr ⟨hp, hc⟩)
      · cases h
      · cases h

theorem computeProcessedObject_blank_mesh {ε : Type}
    (deleteFaces : MeshPrimitive → PrimitiveVariable → Except ε Object) :
    DeleteFaces.computeProcessedObject deleteFaces "" (Object.meshPrimitive ⟨[], [], []⟩)
      = Except.ok (Object.meshPrimitive ⟨[], [], []⟩) := by
  unfold DeleteFaces.computeProcessedObject
  simp only [runTimeCastMeshPrimitive]
  rw [if_pos (by decide)]

theorem computeProcessedObject_missing_mesh {ε : Type}
    (deleteFaces : MeshPrimitive → PrimitiveVariable → Except ε Object) :
    DeleteFaces.computeProcessedObject deleteFaces "x" (Object.meshPrimitive ⟨[], [], []⟩)
      = Except.error (Exception.InvalidArgumentException
          (DeleteFaces.noPrimitiveVariableMessage "x")) := by
  unfold DeleteFaces.computeProcessedObject
  simp only [runTimeCastMeshPrimitive]
  rw [if_neg (by decide)]
  rfl

/-- C4: the affects relation of `DeleteFaces` covers the data dependencies of its compute
routines, whatever the base class contributes.  Every plug the result of
`computeProcessedObject` depends on has `out.object` among its affected plugs, and every
plug the result of `computeProcessedBound` depends on has `out.bound` among them.  These
dependencies are real: `computeProcessedObject` does depend on the faces plug, whose
value is the name it looks up, and `computeProcessedBound` on `out.object`, whose bound
it returns when it is a primitive; `affects( faces )` holds `out.object` and
`affects( out.object )` holds `out.bound`.  So both `out.object` and `out.bound` are in
the transitive closure of affects from `faces`. -/
theorem affects_covers_reads {ε : Type}
    (deleteFaces : MeshPrimitive → PrimitiveVariable → Except ε Object)
    (bound : Object → Box3f)
    (baseAffects : Plug → AffectedPlugsContainer → AffectedPlugsContainer)
    (outputs : AffectedPlugsContainer) :
    (∀ inputObject p,
      DependsOn (fun values => DeleteFaces.computeProcessedObjectOn deleteFaces values
        inputObject) p →
      Plug.outPlug ScenePlugChild.objectPlug
        ∈ DeleteFaces.affects baseAffects p outputs) ∧
    (∀ inputBound p,
      DependsOn (fun values : PlugValues ε =>
        DeleteFaces.computeProcessedBoundOn bound values inputBound) p →
      Plug.outPlug ScenePlugChild.boundPlug
        ∈ DeleteFaces.affects baseAffects p outputs) ∧
    (∃ inputObject,
      DependsOn (fun values => DeleteFaces.computeProcessedObjectOn deleteFaces values
        inputObject) Plug.facesPlug) ∧
    (∀ inputBound,
      DependsOn (fun values : PlugValues ε =>
        DeleteFaces.computeProcessedBoundOn bound values inputBound)
        (Plug.outPlug ScenePlugChild.objectPlug)) ∧
    (∀ (values : PlugValues ε) v inputObject, values Plug.facesPlug = PlugValue.string v →
      DeleteFaces.computeProcessedObjectOn deleteFaces values inputObject
        = DeleteFaces.computeProcessedObject deleteFaces v inputObject) ∧
    (∀ (values : PlugValues ε) object inputBound,
      values (Plug.outPlug ScenePlugChild.objectPlug) = PlugValue.object (Except.ok object) →
      DeleteFaces.computeProcessedBoundOn bound values inputBound
        = Except.ok (if runTimeCastPrimitive object then bound object else inputBound)) ∧
    Plug.outPlug ScenePlugChild.objectPlug
      ∈ DeleteFaces.affects baseAffects Plug.facesPlug outputs ∧
    Plug.outPlug ScenePlugChild.boundPlug
      ∈ DeleteFaces.affects baseAffects (Plug.outPlug ScenePlugChild.objectPlug) outputs ∧
    Relation.TransGen (fun a b => b ∈ DeleteFaces.affects baseAffects a outputs)
      Plug.facesPlug (Plug.outPlug ScenePlugChild.objectPlug) ∧
    Relation.TransGen (fun a b => b ∈ DeleteFaces.affects baseAffects a outputs)
      Plug.facesPlug (Plug.outPlug ScenePlugChild.boundPlug) := by
  have h1 : Plug.outPlug ScenePlugChild.objectPlug
      ∈ DeleteFaces.affects baseAffects Plug.facesPlug outputs := by
    simp [DeleteFaces.affects]
  have h2 : Plug.outPlug ScenePlugChild.boundPlug
      ∈ DeleteFaces.affects baseAffects (Plug.outPlug ScenePlugChild.objectPlug) outputs := by
    simp [DeleteFaces.affects]
  refine ⟨?_, ?_, ?_, ?_, ?_, ?_, h1, h2, Relation.TransGen.single h1,
    Relation.TransGen.tail (Relation.TransGen.single h1) h2⟩
  rotate_left 4
  · intro values v inputObject hv
    simp only [DeleteFaces.computeProcessedObjectOn, PlugValues.getString, hv]
  · intro values object inputBound hv
    simp only [DeleteFaces.computeProcessedBoundOn, PlugValues.getObject, hv,
      DeleteFaces.computeProcessedBound]
    split <;> rfl
  · rintro inputObject p ⟨values1, values2, hagree, hne⟩
    by_cases hp : p = Plug.facesPlug
    · subst hp
      exact h1
    · exfalso
      apply hne
      have hv := hagree Plug.facesPlug (Ne.symm hp)
      simp only [DeleteFaces.computeProcessedObjectOn, PlugValues.getString, hv]
  · rintro inputBound p ⟨values1, values2, hagree, hne⟩
    by_cases hp : p = Plug.outPlug ScenePlugChild.objectPlug
    · subst hp
      exact h2
    · exfalso
      apply hne
      have hv := hagree (Plug.outPlug ScenePlugChild.objectPlug) (Ne.symm hp)
      simp only [DeleteFaces.computeProcessedBoundOn, PlugValues.getObject, hv]
  · refine ⟨Object.meshPrimitive ⟨[], [], []⟩, fun _ => PlugValue.string "",
      fun q => if q = Plug.facesPlug then PlugValue.string "x" else PlugValue.string "",
      ?_, ?_⟩
    · intro q hq
      simp [hq]
    · simp only [DeleteFaces.computeProcessedObjectOn, PlugValues.getString, if_true]
      rw [computeProcessedObject_blank_mesh, computeProcessedObject_missing_mesh]
      intro h
      cases h
  · intro inputBound
    refine ⟨fun _ => PlugValue.object (Except.error (Exception.InvalidArgumentException "")),
      fun q => if q = Plug.outPlug ScenePlugChild.objectPlug
        then PlugValue.object (Except.ok (Object.object "NullObject"))
        else PlugValue.object (Except.error (Exception.InvalidArgumentException "")),
      ?_, ?_⟩
    · intro q hq
      simp [hq]
    · simp only [DeleteFaces.computeProcessedBoundOn, PlugValues.getObject, if_true,
        DeleteFaces.computeProcessedBound, runTimeCastPrimitive]
      intro h
      cases h

/-- C5: after `DeleteFaces::affects( p, outputs )` the container holds what
`SceneElementProcessor::affects` left in it, followed by `out.object` alone when `p` is
the faces plug, by `out.bound` alone when `p` is `out.object`, and by nothing for any
other plug. -/
theorem affects_minimal
    (baseAffects : Plug → AffectedPlugsContainer → AffectedPlugsContainer)
    (outputs : AffectedPlugsContainer) :
    DeleteFaces.affects baseAffects Plug.facesPlug outputs
      = baseAffects Plug.facesPlug outputs ++ [Plug.outPlug ScenePlugChild.objectPlug] ∧
    DeleteFaces.affects baseAffects (Plug.outPlug ScenePlugChild.objectPlug) outputs
      = baseAffects (Plug.outPlug ScenePlugChild.objectPlug) outputs
          ++ [Plug.outPlug ScenePlugChild.boundPlug] ∧
    (∀ p, p ≠ Plug.facesPlug → p ≠ Plug.outPlug ScenePlugChild.objectPlug →
      DeleteFaces.affects baseAffects p outputs = baseAffects p outputs) := by
  refine ⟨by simp [DeleteFaces.affects], by simp [DeleteFaces.affects], ?_⟩
  intro p h1 h2
  simp [DeleteFaces.affects, h1, h2]

/-- C6: the edges `faces -> out.object` and `out.object -> out.bound` added by
`DeleteFaces::affects` are acyclic (no plug reaches itself), every target is an output
plug, a child of `out`, never an input, and the walk along these edges from any plug ends
within a budget of three, reaching no plug twice and exactly the plugs reachable from
the start. -/
theorem addedEdges_acyclic :
    (∀ p, ¬ Relation.TransGen (fun a b => b ∈ DeleteFaces.addedEdges a) p p) ∧
    (∀ p q, q ∈ DeleteFaces.addedEdges p →
      q.direction = Direction.Out ∧ q.direction ≠ Direction.In ∧ ∃ c, q = Plug.outPlug c) ∧
    (∀ p, ∃ visited, propagateDirtiness DeleteFaces.addedEdges 3 p = some visited ∧
      visited.Nodup ∧
      ∀ q, q ∈ visited ↔
        q = p ∨ Relation.TransGen (fun a b => b ∈ DeleteFaces.addedEdges a) p q) := by
  refine ⟨?_, ?_, ?_⟩
  · intro p h
    rcases transGen_addedEdges p p h with ⟨h1, h2⟩ | ⟨h1, h2⟩ | ⟨h1, h2⟩ <;>
      · rw [h1] at h2
        cases h2
  · intro p q h
    rcases (mem_addedEdges _ _).mp h with ⟨_, hq⟩ | ⟨_, hq⟩ <;>
      · subst hq
        exact ⟨rfl, by decide, _, rfl⟩
  · intro p
    have e1 : (Plug.outPlug ScenePlugChild.boundPlug)
        ∈ DeleteFaces.addedEdges (Plug.outPlug ScenePlugChild.objectPlug) := by decide
    have e0 : (Plug.outPlug ScenePlugChild.objectPlug)
        ∈ DeleteFaces.addedEdges Plug.facesPlug := by decide
    by_cases h1 : p = Plug.facesPlug
    · subst h1
      refine ⟨[Plug.facesPlug, Plug.outPlug ScenePlugChild.objectPlug,
        Plug.outPlug ScenePlugChild.boundPlug], by decide, by decide, ?_⟩
      intro q
      constructor
      · intro hq
        simp only [List.mem_cons, List.mem_singleton, List.not_mem_nil, or_false] at hq
        rcases hq with hq | hq | hq
        · exact Or.inl hq
        · subst hq; exact Or.inr (Relation.TransGen.single e0)
        · subst hq
          exact Or.inr (Relation.TransGen.tail (Relation.TransGen.single e0) e1)
      · rintro (hq | hq)
        · subst hq; simp
        · rcases transGen_addedEdges _ _ hq with ⟨_, h⟩ | ⟨h, _⟩ | ⟨_, h⟩
          · subst h; simp
          · cases h
          · subst h; simp
    · by_cases h2 : p = Plug.outPlug ScenePlugChild.objectPlug
      · subst h2
        refine ⟨[Plug.outPlug ScenePlugChild.objectPlug,
          Plug.outPlug ScenePlugChild.boundPlug], by decide, by decide, ?_⟩
        intro q
        constructor
        · intro hq
          simp only [List.mem_cons, List.mem_singleton, List.not_mem_nil, or_false] at hq
          rcases hq with hq | hq
          · exact Or.inl hq
          · subst hq; exact Or.inr (Relation.TransGen.single e1)
        · rintro (hq | hq)
          · subst hq; simp
          · rcases transGen_addedEdges _ _ hq with ⟨h, _⟩ | ⟨_, h⟩ | ⟨h, _⟩
            · cases h
            · subst h; simp
            · cases h
      · have hnil : DeleteFaces.addedEdges p = [] := by
          simp [DeleteFaces.addedEdges, DeleteFaces.affects, h1, h2]
        refine ⟨[p], by rw [propagateDirtiness, hnil]; rfl, by simp, ?_⟩
        intro q
        constructor
        · intro hq
          exact Or.inl (List.mem_singleton.mp hq)
        · rintro (hq | hq)
          · subst hq; simp
          · rcases transGen_addedEdges _ _ hq with ⟨h, _⟩ | ⟨h, _⟩ | ⟨h, _⟩
            · exact absurd h h1
            · exact absurd h h2
            · exact absurd h h1

/-! ### The constructor -/

/-- C7: on top of any node left by the base class constructor, the constructor of
`DeleteFaces` connects `out.attributes` to `in.attributes` and `out.transform` to
`in.transform`, changes no other connection, and adds one child and no more: the input
`StringPlug` called `faces` with default `deleteFaces`, which is the plug `facesPlug()`
returns.  `processesObject()` and `processesBound()` are both true. -/
theorem construct_passThrough (base : Node) :
    (DeleteFacesNode.construct base).node.input (Plug.outPlug ScenePlugChild.attributesPlug)
      = some (Plug.inPlug ScenePlugChild.attributesPlug) ∧
    (DeleteFacesNode.construct base).node.input (Plug.outPlug ScenePlugChild.transformPlug)
      = some (Plug.inPlug ScenePlugChild.transformPlug) ∧
    (∀ p, p ≠ Plug.outPlug ScenePlugChild.attributesPlug →
      p ≠ Plug.outPlug ScenePlugChild.transformPlug →
      (DeleteFacesNode.construct base).node.input p = base.input p) ∧
    (DeleteFacesNode.construct base).node.children
      = base.children ++ [⟨"StringPlug", "faces", Direction.In, "deleteFaces"⟩] ∧
    (DeleteFacesNode.construct base).node.children.length = base.children.length + 1 ∧
    (DeleteFacesNode.construct base).facesPlug
      = some ⟨"StringPlug", "faces", Direction.In, "deleteFaces"⟩ ∧
    DeleteFaces.processesObject = true ∧ DeleteFaces.processesBound = true := by
  refine ⟨?_, ?_, ?_, rfl, ?_, ?_, rfl, rfl⟩
  · simp [DeleteFacesNode.construct, Node.setInput, Node.addChild]
  · simp [DeleteFacesNode.construct, Node.setInput, Node.addChild]
  · intro p h1 h2
    simp [DeleteFacesNode.construct, Node.setInput, Node.addChild, h1, h2]
  · simp [DeleteFacesNode.construct, Node.setInput, Node.addChild]
  · simp [DeleteFacesNode.construct, DeleteFacesNode.facesPlug, Node.setInput, Node.addChild]

end GafferScene

namespace GafferBindings

open Gaffer

theorem serialisePlugs_preferences_example :
    serialisePlugs (fun p => p.getName ++ "!") 7 ⟨[]⟩
    (.mk "preferences" none 0
      [.mk "a" (some .In) 1 [], .mk "c" (some .In) 7 [.mk "x" (some .In) 2 [], .mk "y" (some .Out) 2 []],
       .mk "o" (some .Out) 7 [.mk "z" (some .In) 2 []]]) "root"
    = ⟨["root[\"a\"].setValue( a! )\n", "root[\"c\"][\"x\"].setValue( x! )\n"]⟩ := by decide

theorem setValueStatement_cons (spv : GraphComponent → String) (parentPath n : String)
    (l : List String × GraphComponent) :
    Spec.setValueStatement spv (parentPath ++ "[\"" ++ n ++ "\"]") l
      = Spec.setValueStatement spv parentPath (n :: l.1, l.2) := by
  simp [Spec.setValueStatement, Spec.indexPath, String.append_assoc]

theorem setValueStatement_leaf (spv : GraphComponent → String) (parentPath : String)
    (it : GraphComponent) :
    parentPath ++ "[\"" ++ it.getName ++ "\"].setValue( " ++ spv it ++ " )\n"
      = Spec.setValueStatement spv parentPath ([it.getName], it) := by
  simp [Spec.setValueStatement, Spec.indexPath, String.append_assoc]

mutual

theorem serialisePlugs_eq (spv : GraphComponent → String) (cid : Nat) :
    ∀ (parent : GraphComponent) (s : Serialiser) (parentPath : String),
      serialisePlugs spv cid s parent parentPath
        = ⟨s.added ++ (Spec.leafPlugs cid parent).map (Spec.setValueStatement spv parentPath)⟩
  | .mk _ _ _ children, s, parentPath => by
    rw [serialisePlugs, Spec.leafPlugs]
    exact serialisePlugsLoop_eq spv cid children s parentPath

theorem serialisePlugsLoop_eq (spv : GraphComponent → String) (cid : Nat) :
    ∀ (remaining : List GraphComponent) (s : Serialiser) (parentPath : String),
      serialisePlugsLoop spv cid s remaining parentPath
        = ⟨s.added ++ (Spec.leafPlugsOfChildren cid remaining).map
            (Spec.setValueStatement spv parentPath)⟩
  | [], s, parentPath => by
    simp [serialisePlugsLoop, Spec.leafPlugsOfChildren]
  | it :: rest, s, parentPath => by
    rw [serialisePlugsLoop, Spec.leafPlugsOfChildren]
    by_cases hin : it.isInputPlug = true
    · by_cases hty : it.typeId = cid
      · rw [if_pos hin, if_pos hty, if_pos hin, if_pos hty,
          serialisePlugsLoop_eq spv cid rest, serialisePlugs_eq spv cid it]
        simp [List.map_map, Function.comp_def, setValueStatement_cons]
      · rw [if_pos hin, if_neg hty, if_pos hin, if_neg hty,
          serialisePlugsLoop_eq spv cid rest]
        simp [Serialiser.add, setValueStatement_leaf]
    · rw [if_neg hin, if_neg hin, serialisePlugsLoop_eq spv cid rest]
      simp

end

theorem leafPlugs_eq_children (cid : Nat) (parent : GraphComponent) :
    Spec.leafPlugs cid parent = Spec.leafPlugsOfChildren cid parent.children := by
  cases parent
  rw [Spec.leafPlugs, GraphComponent.children]

theorem mem_leafPlugsOfChildren (cid : Nat) (children : List GraphComponent)
    (l : List String × GraphComponent) :
    l ∈ Spec.leafPlugsOfChildren cid children ↔
      ∃ child ∈ children, child.isInputPlug = true ∧
        ((child.typeId ≠ cid ∧ l = ([child.getName], child)) ∨
         (child.typeId = cid ∧
            ∃ l0 ∈ Spec.leafPlugs cid child, l = (child.getName :: l0.1, l0.2))) := by
  induction children with
  | nil => simp [Spec.leafPlugsOfChildren]
  | cons c rest ih =>
    rw [Spec.leafPlugsOfChildren, List.mem_append, ih]
    constructor
    · rintro (h | ⟨child, hmem, hrest⟩)
      · refine ⟨c, List.mem_cons_self _ _, ?_⟩
        by_cases hin : c.isInputPlug = true
        · by_cases hty : c.typeId = cid
          · rw [if_pos hin, if_pos hty, List.mem_map] at h
            obtain ⟨l0, hl0, rfl⟩ := h
            exact ⟨hin, Or.inr ⟨hty, l0, hl0, rfl⟩⟩
          · rw [if_pos hin, if_neg hty, List.mem_singleton] at h
            exact ⟨hin, Or.inl ⟨hty, h⟩⟩
        · rw [if_neg hin] at h
          cases h
      · exact ⟨child, List.mem_cons_of_mem _ hmem, hrest⟩
    · rintro ⟨child, hmem, hin, hcases⟩
      rcases List.mem_cons.mp hmem with heq | hmem
      · subst heq
        left
        rcases hcases with ⟨hty, hl⟩ | ⟨hty, l0, hl0, hl⟩
        · rw [if_pos hin, if_neg hty, List.mem_singleton]
          exact hl
        · rw [if_pos hin, if_pos hty, List.mem_map]
          exact ⟨l0, hl0, hl.symm⟩
      · exact Or.inr ⟨child, hmem, hin, hcases⟩

mutual

theorem reachableLeaf_of_mem (cid : Nat) :
    ∀ (parent : GraphComponent) (names : List String) (plug : GraphComponent),
      (names, plug) ∈ Spec.leafPlugs cid parent → Spec.ReachableLeaf cid parent names plug
  | .mk name direction typeId children, names, plug, h => by
    rw [Spec.leafPlugs] at h
    obtain ⟨child, hmem, hin, hcases⟩ := reachableLeaf_of_mem_children cid children names plug h
    rcases hcases with ⟨hty, hn, hp⟩ | ⟨hty, rest, hn, hr⟩
    · subst hn hp
      exact Spec.ReachableLeaf.leaf _ _ hmem hin hty
    · subst hn
      exact Spec.ReachableLeaf.through _ child rest plug hmem hin hty hr

theorem reachableLeaf_of_mem_children (cid : Nat) :
    ∀ (children : List GraphComponent) (names : List String) (plug : GraphComponent),
      (names, plug) ∈ Spec.leafPlugsOfChildren cid children →
      ∃ child ∈ children, child.isInputPlug = true ∧
        ((child.typeId ≠ cid ∧ names = [child.getName] ∧ plug = child) ∨
         (child.typeId = cid ∧
            ∃ rest, names = child.getName :: rest ∧ Spec.ReachableLeaf cid child rest plug))
  | [], names, plug, h => by
    rw [Spec.leafPlugsOfChildren] at h
    cases h
  | c :: siblings, names, plug, h => by
    rw [Spec.leafPlugsOfChildren, List.mem_append] at h
    rcases h with h | h
    · refine ⟨c, List.mem_cons_self _ _, ?_⟩
      by_cases hin : c.isInputPlug = true
      · by_cases hty : c.typeId = cid
        · rw [if_pos hin, if_pos hty, List.mem_map] at h
          obtain ⟨l0, hl0, hl⟩ := h
          cases hl
          exact ⟨hin, Or.inr ⟨hty, l0.1, rfl, reachableLeaf_of_mem cid c l0.1 l0.2 hl0⟩⟩
        · rw [if_pos hin, if_neg hty, List.mem_singleton] at h
          cases h
          exact ⟨hin, Or.inl ⟨hty, rfl, rfl⟩⟩
      · rw [if_neg hin] at h
        cases h
    · obtain ⟨child, hmem, hrest⟩ := reachableLeaf_of_mem_children cid siblings names plug h
      exact ⟨child, List.mem_cons_of_mem _ hmem, hrest⟩

end

theorem mem_of_reachableLeaf (cid : Nat) (parent : GraphComponent) (names : List String)
    (plug : GraphComponent) (h : Spec.ReachableLeaf cid parent names plug) :
    (names, plug) ∈ Spec.leafPlugs cid parent := by
  induction h with
  | leaf parent child hmem hin hty =>
    rw [leafPlugs_eq_children, mem_leafPlugsOfChildren]
    exact ⟨child, hmem, hin, Or.inl ⟨hty, rfl⟩⟩
  | through parent child names plug hmem hin hty _ ih =>
    rw [leafPlugs_eq_children, mem_leafPlugsOfChildren]
    exact ⟨child, hmem, hin, Or.inr ⟨hty, (names, plug), ih, rfl⟩⟩

/-- C9: `serialisePlugs` adds to the serialiser, after what it already holds, one
`setValue` statement for each leaf of the claim and nothing else, in depth-first child
order: for a leaf reached by the names `n1 ... nk` the statement is
`parentPath["n1"]...["nk"].setValue( serialisePlugValue( plug ) )` and a newline.  The
leaves are the input plugs that are not of exact type `CompoundPlug` and are reached
through input plugs of exact type `CompoundPlug`.  The function is total, so the
recursion ends on every finite tree of plugs. -/
theorem serialisePlugs_statements (serialisePlugValue : GraphComponent → String)
    (compoundPlugTypeId : Nat) (s : Serialiser) (parent : GraphComponent)
    (parentPath : String) :
    (serialisePlugs serialisePlugValue compoundPlugTypeId s parent parentPath).added
      = s.added ++ (Spec.leafPlugs compoundPlugTypeId parent).map
          (fun l => parentPath ++ Spec.indexPath l.1 ++ ".setValue( "
            ++ serialisePlugValue l.2 ++ " )\n") ∧
    (serialisePlugs serialisePlugValue compoundPlugTypeId s parent parentPath).added.length
      = s.added.length + (Spec.leafPlugs compoundPlugTypeId parent).length ∧
    (∀ names plug, (names, plug) ∈ Spec.leafPlugs compoundPlugTypeId parent ↔
      Spec.ReachableLeaf compoundPlugTypeId parent names plug) := by
  rw [serialisePlugs_eq]
  refine ⟨rfl, by simp, ?_⟩
  intro names plug
  exact ⟨reachableLeaf_of_mem _ _ _ _, mem_of_reachableLeaf _ _ _ _⟩

end GafferBindings

namespace Gaffer

/-- C8: two nested `TimeWarp` nodes, the one asked first with speed `s1` and offset
`offset1`, its input with speed `s2` and offset `offset2`, evaluate the leaf at frame
`offset2 + s2 * (offset1 + s1 * f)` for a request at frame `f`.  With `s1 = 2`,
`offset1 = 0`, `s2 = 1`, `offset2 = 10` and `f = 5` the leaf frame is `20` and not `30`,
which is what the opposite nesting gives.  The other variables reach the leaf as they
were. -/
theorem timeWarp_composition (s1 offset1 s2 offset2 : ℚ) (c : Context) :
    ((ComputeNode.timeWarp s1 offset1
        (ComputeNode.timeWarp s2 offset2 ComputeNode.leaf)).leafContext c).frame
      = offset2 + s2 * (offset1 + s1 * c.frame) ∧
    ((ComputeNode.timeWarp s1 offset1
        (ComputeNode.timeWarp s2 offset2 ComputeNode.leaf)).leafContext c).others
      = c.others ∧
    ((ComputeNode.timeWarp 2 0
        (ComputeNode.timeWarp 1 10 ComputeNode.leaf)).leafContext ⟨5, c.others⟩).frame = 20 ∧
    ((ComputeNode.timeWarp 2 0
        (ComputeNode.timeWarp 1 10 ComputeNode.leaf)).leafContext ⟨5, c.others⟩).frame ≠ 30 ∧
    ((ComputeNode.timeWarp 1 10
        (ComputeNode.timeWarp 2 0 ComputeNode.leaf)).leafContext ⟨5, c.others⟩).frame = 30 := by
  refine ⟨rfl, rfl, ?_, ?_, ?_⟩ <;>
    norm_num [ComputeNode.leafContext, TimeWarp.processContext]

end Gaffer

namespace GafferScene

open Gaffer

/-! ### Hash and value of `out.bound` -/

/-- C3: the hash of `out.bound` does not depend on `in.object`, although
`computeProcessedBound` reads `out.object`.  Two evaluations with the same faces value
and the same input bound (value and hash), hence the same hash, whose `in.object`
differ: `computeProcessedBound` returns the bound of `out.object`, here the untouched
points primitive, and the two bounds differ, so equal hashes do not give equal bounds.
This holds whatever `MeshAlgo::deleteFaces` does. -/
theorem hashBound_equal_computeBound_differs {ε : Type}
    (deleteFaces : MeshPrimitive → PrimitiveVariable → Except ε Object) :
    (∀ (e : BoundEvaluation) (object : Object),
      ({ e with inputObject := object } : BoundEvaluation).hashBound = e.hashBound) ∧
    evaluationA.hashBound = evaluationB.hashBound ∧
    evaluationA.facesValue = evaluationB.facesValue ∧
    evaluationA.inputBound = evaluationB.inputBound ∧
    evaluationA.inputBoundHash = evaluationB.inputBoundHash ∧
    evaluationA.computeBound deleteFaces boundOfP = Except.ok ⟨(0, 0, 0), (1, 1, 1)⟩ ∧
    evaluationB.computeBound deleteFaces boundOfP = Except.ok ⟨(0, 0, 0), (2, 2, 2)⟩ ∧
    evaluationA.computeBound deleteFaces boundOfP
      ≠ evaluationB.computeBound deleteFaces boundOfP := by
  have hA : evaluationA.computeBound deleteFaces boundOfP
      = Except.ok ⟨(0, 0, 0), (1, 1, 1)⟩ := by
    simp only [BoundEvaluation.computeBound, DeleteFaces.computeProcessedObject, evaluationA,
      runTimeCastMeshPrimitive, DeleteFaces.computeProcessedBound, runTimeCastPrimitive,
      if_true]
    exact congrArg Except.ok (by decide)
  have hB : evaluationB.computeBound deleteFaces boundOfP
      = Except.ok ⟨(0, 0, 0), (2, 2, 2)⟩ := by
    simp only [BoundEvaluation.computeBound, DeleteFaces.computeProcessedObject, evaluationB,
      evaluationA, runTimeCastMeshPrimitive, DeleteFaces.computeProcessedBound,
      runTimeCastPrimitive, if_true]
    exact congrArg Except.ok (by decide)
  refine ⟨fun _ _ => rfl, rfl, rfl, rfl, rfl, hA, hB, ?_⟩
  rw [hA, hB]
  intro h
  have h2 := Except.ok.inj h
  exact absurd h2 (by decide)

end GafferScene
